import Mathlib

/-!
Verification of the Universal Orlando entertainment schedule collector
(`src/collect-universal-entertainment.js`).

The core functions of the collector are shallowly embedded here over an
inductive model `JsVal` of JavaScript values as produced by `JSON.parse`
(plus `undefined`, which arises from missed property accesses).  Functions
that can raise a `TypeError` in JavaScript are embedded with result type
`Except String _`; the error value models the thrown exception.  Pure,
non-throwing functions are embedded as total functions.

Conventions of the embedding, matching JavaScript semantics:
* property access on `null`/`undefined` throws; on any other non-object it
  yields `undefined`;
* `x?.k` yields `undefined` when `x` is `null`/`undefined`;
* `a || b` yields `a` when `a` is truthy, else `b`;
* `for (… of xs)` iterates arrays elementwise and strings by character and
  throws on any other value;
* `s.toLowerCase()` / `s.split(…)` throw when the receiver is not a string.

Objects are association lists of fields; `JSON.parse` never produces
duplicate keys, and lookups take the first matching key.
-/

namespace UEC

/-- JavaScript values, as produced by `JSON.parse`, together with
`undefined` (the result of a missed property access). -/
inductive JsVal where
  | null
  | undefined
  | bool (b : Bool)
  | num (n : Int)
  | str (s : String)
  | arr (elems : List JsVal)
  | obj (fields : List (String × JsVal))

/-- JavaScript truthiness. -/
def truthy : JsVal → Bool
  | .null => false
  | .undefined => false
  | .bool b => b
  | .num n => decide (n ≠ 0)
  | .str s => decide (s ≠ "")
  | .arr _ => true
  | .obj _ => true

/-- Is the value `null` or `undefined` (the receivers on which property
access throws)? -/
def isNullish : JsVal → Bool
  | .null => true
  | .undefined => true
  | _ => false

/-- Is the value exactly `null` (the not-found sentinel of the searches)? -/
def isNull : JsVal → Bool
  | .null => true
  | _ => false

/-- Is the value a string? -/
def isStr : JsVal → Bool
  | .str _ => true
  | _ => false

/-- The underlying string of a string value (dummy `""` otherwise). -/
def strOf : JsVal → String
  | .str s => s
  | _ => ""

/-- Total property read `v.k` for non-nullish receivers: object fields by
first matching key; arrays and strings expose `length` and index `0` (the
only indices the source reads); other primitives have no own properties. -/
def propT (v : JsVal) (k : String) : JsVal :=
  match v with
  | .obj fields => (((fields.find? (fun kv => kv.1 = k)).map (fun kv => kv.2)).getD .undefined)
  | .arr es =>
      if k = "length" then .num es.length
      else if k = "0" then es.headD .undefined
      else .undefined
  | .str s =>
      if k = "length" then .num s.length
      else if k = "0" then
        match s.data with
        | [] => .undefined
        | c :: _ => .str (String.mk [c])
      else .undefined
  | _ => .undefined

/-- Property read `v.k`, throwing (as JavaScript does) on `null` and
`undefined` receivers. -/
def getProp (v : JsVal) (k : String) : Except String JsVal :=
  match v with
  | .null => .error "TypeError"
  | .undefined => .error "TypeError"
  | _ => .ok (propT v k)

/-- Optional-chain property read `v?.k`. -/
def optChainT (v : JsVal) (k : String) : JsVal :=
  if isNullish v then .undefined else propT v k

/-- JavaScript `a || b`. -/
def jsOr (a b : JsVal) : JsVal :=
  if truthy a then a else b

/-- The element read `v?.[0]` used by the source on `Values` wrappers. -/
def idx0opt : JsVal → JsVal
  | .arr es => es.headD .undefined
  | .str s =>
      match s.data with
      | [] => .undefined
      | c :: _ => .str (String.mk [c])
  | .obj fields => (((fields.find? (fun kv => kv.1 = "0")).map (fun kv => kv.2)).getD .undefined)
  | _ => .undefined

/-- `v === 0`-style test of the source's `dateTimeValues.length === 0`:
strict equality against the number `0`. -/
def isNumZero : JsVal → Bool
  | .num n => decide (n = 0)
  | _ => false

/-- Strict equality test of a value against a string literal
(`showTime === 'Unknown'`). -/
def isStrLit (v : JsVal) (lit : String) : Bool :=
  match v with
  | .str s => decide (s = lit)
  | _ => false

/-- `for (… of v)`: arrays iterate elementwise, strings by character,
anything else throws a `TypeError`. -/
def jsIterate : JsVal → Except String (List JsVal)
  | .arr es => .ok es
  | .str s => .ok (s.data.map (fun c => .str (String.mk [c])))
  | _ => .error "TypeError"

/-- Elements an iteration would see, total version (non-iterable values
contribute nothing); used by spec-side definitions. -/
def iterElems : JsVal → List JsVal
  | .arr es => es
  | .str s => s.data.map (fun c => .str (String.mk [c]))
  | _ => []

/-- `v.toLowerCase()`: succeeds exactly on strings. -/
def toLowerCaseJ : JsVal → Except String String
  | .str s => .ok (String.mk (s.data.map Char.toLower))
  | _ => .error "TypeError"

/-- Total lowercasing used by spec-side definitions. -/
def jsToLower (s : String) : String :=
  String.mk (s.data.map Char.toLower)

/-- Does the character list start with the pattern? -/
def leadsWith : List Char → List Char → Bool
  | [], _ => true
  | _ :: _, [] => false
  | p :: ps, c :: cs => p == c && leadsWith ps cs

/-- Contiguous containment of a pattern in a character list. -/
def hasSub (pat : List Char) : List Char → Bool
  | [] => leadsWith pat []
  | c :: cs => leadsWith pat (c :: cs) || hasSub pat cs

/-- JavaScript `s.includes(pat)`. -/
def strIncludes (s pat : String) : Bool :=
  hasSub pat.data s.data

/-- `dt.split('T')[0]`: the prefix of the string before the first `T`. -/
def splitHeadT (s : String) : String :=
  String.mk (s.data.takeWhile (fun c => c != 'T'))

/-- Did the `Except` computation return normally? -/
def isOkE : Except String α → Bool
  | .ok _ => true
  | .error _ => false

/-!  ## Value Locator (`findValueByKey`, source lines 148–165)

The source bounds recursion with a `depth` parameter, rejecting calls with
`depth > 10`; the embedding carries the equivalent remaining `fuel`
(`11 - depth`), which makes the recursion structural.  A direct key hit in
an object returns its value immediately — even when that value is `null` —
while a `null` result from a recursive call means "keep scanning".
-/

/-- `findValueByKey`, fuel form.  Fuel `f` corresponds to a source call at
`depth = 11 - f`; fuel `0` is the `depth > 10` cutoff. -/
def findVBKFuel : Nat → JsVal → String → JsVal
  | 0, _, _ => .null
  | fuel + 1, .arr items, k =>
      items.foldr
        (fun it r =>
          let v := findVBKFuel fuel it k
          if isNull v then r else v)
        .null
  | fuel + 1, .obj fields, k =>
      fields.foldr
        (fun kv r =>
          if kv.1 = k then kv.2
          else
            let v := findVBKFuel fuel kv.2 k
            if isNull v then r else v)
        .null
  | _ + 1, _, _ => .null

/-- `findValueByKey(obj, targetKey, depth)` (source lines 148–165). -/
def findValueByKey (obj : JsVal) (targetKey : String) (depth : Nat) : JsVal :=
  findVBKFuel (11 - depth) obj targetKey

/-- Spec-side list of the values stored under occurrences of the target
key, in the depth-first order described by the spec (sequence index order,
then mapping key order), within the same depth bound as the search. -/
def occListFuel : Nat → JsVal → String → List JsVal
  | 0, _, _ => []
  | fuel + 1, .arr items, k => (items.map (fun it => occListFuel fuel it k)).flatten
  | fuel + 1, .obj fields, k =>
      (fields.map (fun kv =>
        (if kv.1 = k then [kv.2] else []) ++ occListFuel fuel kv.2 k)).flatten
  | _ + 1, _, _ => []

/-- Occurrence list at the default depth. -/
def occList (obj : JsVal) (k : String) : List JsVal :=
  occListFuel 11 obj k

/-- The locator as the spec's sentence reads: return the first value found
under a key exactly matching the target within the depth bound, and the
`null` sentinel when there is none. -/
def locateFirstSpec (obj : JsVal) (k : String) : JsVal :=
  (occList obj k).headD .null

/-- The locator as claim C10 reads: occurrences whose value is `null` are
treated as not found and skipped, so the first occurrence carrying a
non-`null` value is returned, and the sentinel when all are `null`. -/
def locateSkipNullSpec (obj : JsVal) (k : String) : JsVal :=
  ((occList obj k).filter (fun v => !isNull v)).headD .null

/-!  ## Calendar root search (`findCalendarConfig`, source lines 72–103)

Depth bound 25; direct `calendarConfig` field, then `Fields.calendarConfig`,
then recursion, skipping the fixed exclusion keys; results are kept when
truthy.
-/

/-- Keys whose subtrees `findCalendarConfig` skips. -/
def isExcludedKey (k : String) : Bool :=
  k == "MetadataFields" || k == "Categories" || k == "Multimedia"

/-- `findCalendarConfig`, fuel form (fuel `f` is a source call at
`depth = 26 - f`). -/
def fccFuel : Nat → JsVal → JsVal
  | 0, _ => .null
  | fuel + 1, v =>
      if truthy (propT v "calendarConfig") then propT v "calendarConfig"
      else if truthy (propT v "Fields") && truthy (propT (propT v "Fields") "calendarConfig") then
        propT (propT v "Fields") "calendarConfig"
      else
        match v with
        | .arr items =>
            items.foldr
              (fun it r =>
                let c := fccFuel fuel it
                if truthy c then c else r)
              .null
        | .obj fields =>
            fields.foldr
              (fun kv r =>
                if isExcludedKey kv.1 then r
                else
                  let c := fccFuel fuel kv.2
                  if truthy c then c else r)
              .null
        | _ => .null

/-- `findCalendarConfig(obj, depth)` (source lines 72–103). -/
def findCalendarConfig (obj : JsVal) (depth : Nat) : JsVal :=
  fccFuel (26 - depth) obj

/-!  ## Block Decoder (`extractBlockInfo`, source lines 171–221)  -/

/-- The decoded block: display time (any JavaScript value the or-chains can
produce) and the tentativeness flag. -/
structure BlockInfo where
  showTime : JsVal
  isTentative : Bool

/-- The entry list of a block or calendar node, resolved through the three
alias keys (`EmbeddedValues || LinkedComponentValues || Values || []`). -/
def resolveEntries (v : JsVal) : JsVal :=
  jsOr (propT v "EmbeddedValues")
    (jsOr (propT v "LinkedComponentValues")
      (jsOr (propT v "Values") (.arr [])))

/-- The or-chain `o.Values?.[0] || o.Value || last` the source applies to
label and style wrappers. -/
def orChainVal (o : JsVal) (last : JsVal) : JsVal :=
  jsOr (idx0opt (propT o "Values")) (jsOr (propT o "Value") last)

/-- `block.style || block.Fields?.style`. -/
def styleObjF (block : JsVal) : JsVal :=
  jsOr (propT block "style") (optChainT (propT block "Fields") "style")

/-- `eb || block.Fields?.eyebrow` where `eb` is the value read for
`block.eyebrow`. -/
def eyebrowObjF (block eb : JsVal) : JsVal :=
  jsOr eb (optChainT (propT block "Fields") "eyebrow")

/-- The fast-path show time (source lines 188–191). -/
def showTimeF (block eb : JsVal) : JsVal :=
  if truthy (eyebrowObjF block eb) then orChainVal (eyebrowObjF block eb) (.str "Unknown")
  else .str "Unknown"

/-- The fast-path step of `extractBlockInfo` (source lines 184–199): read
`eyebrow` and `style` off the first entry, directly or under `Fields`.
Throws when the first entry is nullish (`block.eyebrow`) or when the style
value is a truthy non-string (`styleVal.toLowerCase()`). -/
def fastPathStep (blockEntries : JsVal) : Except String (JsVal × Bool) :=
  match blockEntries with
  | .arr (block :: _) =>
      match getProp block "eyebrow" with
      | .error e => .error e
      | .ok eb =>
          if truthy (styleObjF block) then
            match toLowerCaseJ (orChainVal (styleObjF block) (.str "")) with
            | .error e => .error e
            | .ok lower => .ok (showTimeF block eb, strIncludes lower "disabled")
          else .ok (showTimeF block eb, false)
  | _ => .ok (.str "Unknown", false)

/-- The deep-search fallback for the show time (source lines 202–208);
never throws. -/
def eyebrowFallbackVal (blockData : JsVal) : JsVal :=
  if truthy (findValueByKey blockData "eyebrow" 0) then
    orChainVal (findValueByKey blockData "eyebrow" 0)
      (if isStr (findValueByKey blockData "eyebrow" 0) then findValueByKey blockData "eyebrow" 0
       else .str "Unknown")
  else .str "Unknown"

/-- The style value the deep-search fallback resolves (source lines
212–215). -/
def deepStyleVal (blockData : JsVal) : JsVal :=
  orChainVal (findValueByKey blockData "style" 0)
    (if isStr (findValueByKey blockData "style" 0) then findValueByKey blockData "style" 0
     else .str "")

/-- The deep-search fallback for the style (source lines 211–218); throws
when the located style value is a truthy non-string. -/
def styleFallbackStep (blockData : JsVal) : Except String Bool :=
  if truthy (findValueByKey blockData "style" 0) then
    match toLowerCaseJ (deepStyleVal blockData) with
    | .error e => .error e
    | .ok lower => .ok (strIncludes lower "disabled")
  else .ok false

/-- `extractBlockInfo(blockData)` (source lines 171–221).  The style
fallback runs whenever the fast path left `isTentative` false — including
when the fast path did find a style that merely lacked "disabled". -/
def extractBlockInfo (blockData : JsVal) : Except String BlockInfo :=
  if truthy blockData = false then .ok ⟨.str "Unknown", false⟩
  else
    match fastPathStep (resolveEntries blockData) with
    | .error e => .error e
    | .ok st =>
        match (if st.2 then Except.ok true else styleFallbackStep blockData) with
        | .error e => .error e
        | .ok isTent1 =>
            .ok ⟨if isStrLit st.1 "Unknown" then eyebrowFallbackVal blockData else st.1,
              isTent1⟩

/-- Total counterpart of the fast-path step (lowercasing through
`jsToLower ∘ strOf`); agrees with `fastPathStep` whenever the latter does
not throw. -/
def fastPathT (blockEntries : JsVal) : JsVal × Bool :=
  match blockEntries with
  | .arr (block :: _) =>
      (showTimeF block (propT block "eyebrow"),
       truthy (styleObjF block) &&
         strIncludes (jsToLower (strOf (orChainVal (styleObjF block) (.str "")))) "disabled")
  | _ => (.str "Unknown", false)

/-- Did the fast path of the block decoder signal tentativeness (a style on
the first entry containing "disabled")? -/
def fastStyleDisabled (blockData : JsVal) : Bool :=
  (fastPathT (resolveEntries blockData)).2

/-- Does the deep fallback search signal tentativeness (a `style` key
anywhere in the block whose resolved value contains "disabled")? -/
def deepStyleDisabled (blockData : JsVal) : Bool :=
  truthy (findValueByKey blockData "style" 0) &&
    strIncludes (jsToLower (strOf (deepStyleVal blockData))) "disabled"

/-- The style string the fast path reads from the first entry, when there
is one (used to state claim C3 against the code). -/
def fastStyleVal (blockData : JsVal) : Option JsVal :=
  match resolveEntries blockData with
  | .arr (block :: _) =>
      if truthy (styleObjF block) then some (orChainVal (styleObjF block) (.str ""))
      else none
  | _ => none

/-- Total counterpart of the whole block decoder; agrees with
`extractBlockInfo` whenever the latter does not throw. -/
def extractBlockInfoT (blockData : JsVal) : BlockInfo :=
  if truthy blockData = false then ⟨.str "Unknown", false⟩
  else
    ⟨if isStrLit (fastPathT (resolveEntries blockData)).1 "Unknown" then
        eyebrowFallbackVal blockData
      else (fastPathT (resolveEntries blockData)).1,
     (fastPathT (resolveEntries blockData)).2 || deepStyleDisabled blockData⟩

/-!  ## Calendar Extractor (`parseCalendarConfig`, source lines 223–275)  -/

/-- One extracted schedule record, as pushed by `parseCalendarConfig`.
`show_time` is whatever value the block decoder produced. -/
structure RawSchedule where
  schedule_date : String
  show_time : JsVal
  status : String
  is_available : Bool

/-- The record pushed for one date string (source lines 263–271). -/
def mkRecord (dateStr : String) (info : BlockInfo) : RawSchedule :=
  { schedule_date := dateStr
    show_time := info.showTime
    status := if info.isTentative then "TENTATIVE" else "SCHEDULED"
    is_available := !info.isTentative }

/-- Does the debug logging block (source lines 239–257) throw?  It calls
`Object.keys(val[0])` for every own value `val` of `blockData` that is a
non-empty array, which throws when `val[0]` is `null` (and `val[0].Fields`
throws when it is a hole/`undefined`). -/
def debugThrows (blockData : JsVal) : Bool :=
  let vals : List JsVal :=
    match blockData with
    | .obj fields => fields.map (fun kv => kv.2)
    | .arr es => es
    | _ => []
  vals.any
    (fun val =>
      match val with
      | .arr (h :: _) => isNullish h
      | _ => false)

/-- The per-date loop of `parseCalendarConfig` (source lines 263–271):
`dt.split('T')` throws unless `dt` is a string. -/
def datesLoop : List JsVal → BlockInfo → Except String (List RawSchedule)
  | [], _ => .ok []
  | dt :: rest, info =>
      match dt with
      | .str s =>
          match datesLoop rest info with
          | .error e => .error e
          | .ok rs => .ok (mkRecord (splitHeadT s) info :: rs)
      | _ => .error "TypeError"

/-- `entry.eventDates?.DateTimeValues || []` given the value `ed` read for
`entry.eventDates`. -/
def dateTimeValuesOf (ed : JsVal) : JsVal :=
  jsOr (optChainT ed "DateTimeValues") (.arr [])

/-- Processing of one entry of the calendar's entry list (source lines
233–271): date extraction and the skip of dateless entries, the debug
block, the block decode, and the per-date fan-out.  The `Bool` is the
`debugged` flag. -/
def processEntry (entry : JsVal) (debugged : Bool) :
    Except String (List RawSchedule × Bool) :=
  match getProp entry "eventDates" with
  | .error e => .error e
  | .ok ed =>
      if isNumZero (propT (dateTimeValuesOf ed) "length") then .ok ([], debugged)
      else
        match
          (if debugged then Except.ok true
           else if truthy (propT entry "blockData") then
             (if debugThrows (propT entry "blockData") then Except.error "TypeError"
              else .ok true)
           else .ok true) with
        | .error e => .error e
        | .ok debugged1 =>
            match extractBlockInfo (propT entry "blockData") with
            | .error e => .error e
            | .ok info =>
                match jsIterate (dateTimeValuesOf ed) with
                | .error e => .error e
                | .ok dts =>
                    match datesLoop dts info with
                    | .error e => .error e
                    | .ok recs => .ok (recs, debugged1)

/-- The entry loop of `parseCalendarConfig`, accumulating pushed records. -/
def parseEntriesLoop : List JsVal → List RawSchedule → Bool → Except String (List RawSchedule)
  | [], acc, _ => .ok acc
  | entry :: rest, acc, debugged =>
      match processEntry entry debugged with
      | .error e => .error e
      | .ok (recs, debugged1) => parseEntriesLoop rest (acc ++ recs) debugged1

/-- `parseCalendarConfig(calendarConfig)` (source lines 223–275).  The
first property read throws on a nullish argument; a truthy non-array entry
list yields the empty record list (soft warning path). -/
def parseCalendarConfig (calendarConfig : JsVal) : Except String (List RawSchedule) :=
  match getProp calendarConfig "EmbeddedValues" with
  | .error e => .error e
  | .ok _ =>
      match resolveEntries calendarConfig with
      | .arr entryList => parseEntriesLoop entryList [] false
      | _ => .ok []

/-!  Spec-side description of the extractor (from the spec's words in
§4.3): skip entries with an empty or absent date list; for each remaining
entry emit one record per date-time string, sharing the entry's decoded
block, in input entry order then input date order.  -/

/-- The records claim C5 says one entry contributes. -/
def perEntrySpec (entry : JsVal) : List RawSchedule :=
  match dateTimeValuesOf (propT entry "eventDates") with
  | .arr dts =>
      if dts.isEmpty then []
      else
        dts.map (fun dt =>
          mkRecord (splitHeadT (strOf dt)) (extractBlockInfoT (propT entry "blockData")))
  | _ => []

/-- The record list claim C5 says the extractor returns: the concatenation
of the per-entry fan-outs, in input order. -/
def parseCalendarConfigSpec (node : JsVal) : List RawSchedule :=
  match resolveEntries node with
  | .arr es => (es.map perEntrySpec).flatten
  | _ => []

/-!  Well-formedness of a calendar node, sufficient for the extractor to
return without throwing.  -/

/-- Does the style or-chain starting from a candidate style object resolve
to a string (so that `toLowerCase` cannot throw)?  `last` is the final
member of the or-chain. -/
def wfStyleChain (styleObj : JsVal) (last : JsVal) : Bool :=
  !truthy styleObj || isStr (orChainVal styleObj last)

/-- Sufficient condition for `extractBlockInfo` not to throw: when the
block is truthy, the first resolved entry (if any) is not nullish and its
fast-path style chain resolves to a string, and the deep style search also
resolves to a string when it finds something truthy. -/
def wfBlockData (blockData : JsVal) : Bool :=
  !truthy blockData ||
    ((match resolveEntries blockData with
      | .arr (block :: _) => !isNullish block && wfStyleChain (styleObjF block) (.str "")
      | _ => true) &&
     (!truthy (findValueByKey blockData "style" 0) || isStr (deepStyleVal blockData)))

/-- Sufficient condition for one calendar entry to be processed without
throwing: not nullish; its date list either strictly equals length `0` or
is an array of strings; its block survives the debug inspection and the
block decoder. -/
def wfEntry (entry : JsVal) : Bool :=
  !isNullish entry &&
    (match dateTimeValuesOf (propT entry "eventDates") with
     | .arr l => l.all isStr
     | _ => isNumZero (propT (dateTimeValuesOf (propT entry "eventDates")) "length")) &&
    (!truthy (propT entry "blockData") || !debugThrows (propT entry "blockData")) &&
    wfBlockData (propT entry "blockData")

/-- Sufficient condition for `parseCalendarConfig` not to throw. -/
def wfCalendar (node : JsVal) : Bool :=
  !isNullish node &&
    (match resolveEntries node with
     | .arr es => es.all wfEntry
     | _ => true)

/-!  ## Closure Detector (`checkTemporarilyClosed`, source lines 109–125)  -/

/-- The feature scan of one component presentation (source lines 114–119):
`feature.Fields` throws on a nullish feature; `desc.toLowerCase()` throws
on a truthy non-string description value. -/
def featuresLoop : List JsVal → Except String Bool
  | [] => .ok false
  | f :: rest =>
      match getProp f "Fields" with
      | .error e => .error e
      | .ok ffields =>
          match toLowerCaseJ
              (jsOr (idx0opt (optChainT (optChainT ffields "description") "Values"))
                (.str "")) with
          | .error e => .error e
          | .ok lower =>
              if strIncludes lower "temporarily closed" then .ok true
              else featuresLoop rest

/-- The presentation scan (source lines 112–120): `cp.Component` throws on
a nullish presentation; iterating a truthy non-iterable feature list
throws. -/
def presentationsLoop : List JsVal → Except String Bool
  | [] => .ok false
  | cp :: rest =>
      match getProp cp "Component" with
      | .error e => .error e
      | .ok comp =>
          match jsIterate
              (jsOr (optChainT (optChainT (optChainT comp "Fields") "featureList")
                "LinkedComponentValues") (.arr [])) with
          | .error e => .error e
          | .ok fs =>
              match featuresLoop fs with
              | .error e => .error e
              | .ok true => .ok true
              | .ok false => presentationsLoop rest

/-- The body of the `try` block of `checkTemporarilyClosed`. -/
def innerCheckClosed (cmsData : JsVal) : Except String Bool :=
  match getProp cmsData "ComponentPresentations" with
  | .error e => .error e
  | .ok cp0 =>
      match jsIterate (jsOr cp0 (.arr [])) with
      | .error e => .error e
      | .ok cps => presentationsLoop cps

/-- `checkTemporarilyClosed(cmsData)` (source lines 109–125): any thrown
error is caught and turned into `false`. -/
def checkTemporarilyClosed (cmsData : JsVal) : Bool :=
  match innerCheckClosed cmsData with
  | .ok b => b
  | .error _ => false

/-- Spec-side reading of one feature (claim C7): its description text,
when it is a string, contains "temporarily closed" case-insensitively;
malformed features simply do not match. -/
def featureClosed (f : JsVal) : Bool :=
  let desc :=
    jsOr (idx0opt (optChainT (optChainT (propT f "Fields") "description") "Values")) (.str "")
  isStr desc && strIncludes (jsToLower (strOf desc)) "temporarily closed"

/-- Spec-side predicate of claim C7: some feature description text in the
component-presentations substructure contains "temporarily closed". -/
def hasClosedFeature (doc : JsVal) : Bool :=
  (iterElems (jsOr (propT doc "ComponentPresentations") (.arr []))).any
    (fun cp =>
      (iterElems (jsOr (optChainT (optChainT (optChainT (propT cp "Component") "Fields")
          "featureList") "LinkedComponentValues") (.arr []))).any featureClosed)

/-!  ## Snapshot Differ (`detectChanges`, source lines 360–432)

The differ compares string-typed records — the prior records come from the
persistence store, the new ones are the extractor's output as persisted
(`ScheduleRecord` of §3 of the spec: `displayTime` and `status` strings).
`===`/`!==` on strings is structural equality.
-/

/-- The differ's view of a schedule record. -/
structure ScheduleRec where
  schedule_date : String
  show_time : String
  status : String
deriving DecidableEq

/-- The show configuration fields the differ reads. -/
structure ShowConfig where
  show_id : String
  show_name : String
deriving DecidableEq

/-- A partial snapshot (`old_value`/`new_value`): a JavaScript object with
an optional `show_time` and an optional `status` field. -/
structure ValPart where
  show_time : Option String
  status : Option String
deriving DecidableEq

/-- One change event, as pushed by `detectChanges`. -/
structure ChangeEvent where
  change_type : String
  entity_id : String
  entity_name : String
  change_date : String
  change_description : String
  old_value : Option ValPart
  new_value : Option ValPart
  severity : String
deriving DecidableEq

/-- The ADD event (source lines 373–382). -/
def addEvent (cfg : ShowConfig) (r : ScheduleRec) : ChangeEvent :=
  { change_type := "ENTERTAINMENT"
    entity_id := cfg.show_id
    entity_name := cfg.show_name
    change_date := r.schedule_date
    change_description :=
      "New show date added: " ++ cfg.show_name ++ " on " ++ r.schedule_date ++
        " at " ++ r.show_time
    old_value := none
    new_value := some ⟨some r.show_time, some r.status⟩
    severity := "LOW" }

/-- The time-change event (source lines 385–395). -/
def timeChangeEvent (cfg : ShowConfig) (ex r : ScheduleRec) : ChangeEvent :=
  { change_type := "ENTERTAINMENT"
    entity_id := cfg.show_id
    entity_name := cfg.show_name
    change_date := r.schedule_date
    change_description :=
      "Show time changed for " ++ cfg.show_name ++ " on " ++ r.schedule_date ++
        ": " ++ ex.show_time ++ " → " ++ r.show_time
    old_value := some ⟨some ex.show_time, none⟩
    new_value := some ⟨some r.show_time, none⟩
    severity := "MEDIUM" }

/-- The status-change event (source lines 399–409). -/
def statusChangeEvent (cfg : ShowConfig) (ex r : ScheduleRec) : ChangeEvent :=
  { change_type := "ENTERTAINMENT"
    entity_id := cfg.show_id
    entity_name := cfg.show_name
    change_date := r.schedule_date
    change_description :=
      "Status changed for " ++ cfg.show_name ++ " on " ++ r.schedule_date ++
        ": " ++ ex.status ++ " → " ++ r.status
    old_value := some ⟨none, some ex.status⟩
    new_value := some ⟨none, some r.status⟩
    severity := "MEDIUM" }

/-- The REMOVE event (source lines 418–427). -/
def removeEvent (cfg : ShowConfig) (ex : ScheduleRec) : ChangeEvent :=
  { change_type := "ENTERTAINMENT"
    entity_id := cfg.show_id
    entity_name := cfg.show_name
    change_date := ex.schedule_date
    change_description :=
      "Show date removed: " ++ cfg.show_name ++ " on " ++ ex.schedule_date ++
        " (was " ++ ex.show_time ++ ")"
    old_value := some ⟨some ex.show_time, some ex.status⟩
    new_value := none
    severity := "HIGH" }

/-- `Map.set` over the association-list model of a JavaScript `Map`:
update an existing key in place, else append. -/
def mapSet (m : List (String × ScheduleRec)) (k : String) (v : ScheduleRec) :
    List (String × ScheduleRec) :=
  match m with
  | [] => [(k, v)]
  | (k1, v1) :: rest => if k1 = k then (k, v) :: rest else (k1, v1) :: mapSet rest k v

/-- `Map.get`. -/
def mapGet (m : List (String × ScheduleRec)) (k : String) : Option ScheduleRec :=
  (m.find? (fun kv => kv.1 = k)).map (fun kv => kv.2)

/-- The `existingMap` build loop (source lines 364–366). -/
def buildExistingMap (existing : List ScheduleRec) : List (String × ScheduleRec) :=
  existing.foldl (fun m ex => mapSet m ex.schedule_date ex) []

/-- The events the loop over new records pushes for one record (source
lines 368–412). -/
def newRecEvents (cfg : ShowConfig) (existingMap : List (String × ScheduleRec))
    (r : ScheduleRec) : List ChangeEvent :=
  match mapGet existingMap r.schedule_date with
  | none => [addEvent cfg r]
  | some ex =>
      (if ex.show_time ≠ r.show_time then [timeChangeEvent cfg ex r] else []) ++
        (if ex.status ≠ r.status then [statusChangeEvent cfg ex r] else [])

/-- `detectChanges(showConfig, newSchedules, existingSchedules)` (source
lines 360–432). -/
def detectChanges (cfg : ShowConfig) (newSchedules existingSchedules : List ScheduleRec) :
    List ChangeEvent :=
  let existingMap := buildExistingMap existingSchedules
  let changes1 :=
    newSchedules.foldl (fun acc r => acc ++ newRecEvents cfg existingMap r) []
  let newDateSet := newSchedules.map (fun s => s.schedule_date)
  existingSchedules.foldl
    (fun acc ex =>
      if newDateSet.contains ex.schedule_date then acc else acc ++ [removeEvent cfg ex])
    changes1

/-- The differ as claim C1 words it: per new record, an ADD when no prior
record shares its date, else the time-change and status-change events for
the fields that differ; then a REMOVE per prior record whose date appears
in no new record. -/
def detectChangesSpec (cfg : ShowConfig) (newSchedules priorSchedules : List ScheduleRec) :
    List ChangeEvent :=
  (newSchedules.map (fun r =>
      match priorSchedules.find? (fun p => p.schedule_date = r.schedule_date) with
      | none => [addEvent cfg r]
      | some p =>
          (if p.show_time ≠ r.show_time then [timeChangeEvent cfg p r] else []) ++
            (if p.status ≠ r.status then [statusChangeEvent cfg p r] else []))).flatten ++
    (priorSchedules.filter
        (fun p => newSchedules.all (fun r => r.schedule_date ≠ p.schedule_date))).map
      (removeEvent cfg)

/-!  ## Status computation (`processShow`, source lines 452–487)  -/

/-- Steps 2–3 of `processShow`: the extraction of the new schedule list
(parse only when a truthy calendar node was found). -/
def extractSchedules (cmsData : JsVal) : Except String (List RawSchedule) :=
  let calendarConfig := findCalendarConfig cmsData 0
  if truthy calendarConfig then parseCalendarConfig calendarConfig else .ok []

/-- Step 4 of `processShow` (source lines 479–487): the entity's
`current_status`. -/
def computeCurrentStatus (cmsData : JsVal) : Except String String :=
  let isClosed := checkTemporarilyClosed cmsData
  match extractSchedules cmsData with
  | .error e => .error e
  | .ok newSchedules =>
      .ok (if isClosed then "TEMPORARILY_CLOSED"
           else if newSchedules.length > 0 then "ACTIVE"
           else "UNKNOWN")

/-!  ## Concrete documents used by witnesses and counterexamples  -/

/-- Calendar node whose single entry lists the same calendar date twice. -/
def docC2cex : JsVal :=
  .obj [("EmbeddedValues", .arr [
    .obj [("eventDates", .obj [("DateTimeValues",
      .arr [.str "2026-01-05T19:00:00", .str "2026-01-05T21:00:00"])])]])]

/-- Calendar node producing one tentative record. -/
def docC2wit : JsVal :=
  .obj [("EmbeddedValues", .arr [
    .obj [("eventDates", .obj [("DateTimeValues", .arr [.str "2026-03-01T20:00:00"])]),
          ("blockData", .obj [("EmbeddedValues", .arr [.obj [
            ("eyebrow", .obj [("Values", .arr [.str "9:00 PM"])]),
            ("style", .obj [("Values", .arr [.str "Disabled Style"])])]])])]])]

/-- Block whose first entry carries a non-disabled style while a deeper
`style` key (reached first by the deep search) says "Disabled Style". -/
def docC3cex : JsVal :=
  .obj [("EmbeddedValues", .arr [
    .obj [("a", .obj [("style", .obj [("Values", .arr [.str "Disabled Style"])])]),
          ("style", .obj [("Values", .arr [.str "Active"])])]])]

/-- Block marked disabled on the fast path itself (through the `Values`
alias and the singular `Value` wrapper). -/
def docC3wit : JsVal :=
  .obj [("Values", .arr [.obj [("style", .obj [("Value", .str "Disabled Style")])]])]

/-- Block whose entry list contains a `null` entry: `block.eyebrow`
throws. -/
def docC4bd : JsVal := .obj [("LinkedComponentValues", .arr [.null])]

/-- Calendar node whose entry list contains a `null` entry:
`entry.eventDates` throws. -/
def docC4node : JsVal := .obj [("Values", .arr [.null])]

/-- Well-formed block for the no-throw witness. -/
def docC4wbd : JsVal :=
  .obj [("EmbeddedValues", .arr [.obj [("style", .obj [("Values", .arr [.str "Active Style"])])]])]

/-- Well-formed calendar node for the no-throw witness. -/
def docC4wnode : JsVal :=
  .obj [("EmbeddedValues", .arr [
    .obj [("eventDates", .obj [("DateTimeValues", .arr [.str "2026-04-01T10:00:00"])])]])]

/-- Well-formed two-entry calendar node; the second entry has no dates and
is skipped, and the first lists its dates out of order. -/
def docC5wit : JsVal :=
  .obj [("EmbeddedValues", .arr [
    .obj [("eventDates", .obj [("DateTimeValues",
            .arr [.str "2026-02-05T18:00:00", .str "2026-02-02T18:00:00"])]),
          ("blockData", .obj [("EmbeddedValues", .arr [.obj [
            ("eyebrow", .obj [("Values", .arr [.str "7:00 PM"])]),
            ("style", .obj [("Values", .arr [.str "Active Style"])])]])])],
    .obj [("eventDates", .obj [("DateTimeValues", .arr [])])]])]

/-- Document with a closure marker inside a well-formed feature list. -/
def docC6wit : JsVal :=
  .obj [("ComponentPresentations", .arr [
    .obj [("Component", .obj [("Fields", .obj [("featureList",
      .obj [("LinkedComponentValues", .arr [
        .obj [("Fields", .obj [("description",
          .obj [("Values", .arr [.str "This show is Temporarily Closed."])])])]])])])])]])]

/-- Document whose feature list holds a `null` feature before a feature
whose description carries the closure marker: the scan throws before
reaching it. -/
def docC7cex : JsVal :=
  .obj [("ComponentPresentations", .arr [
    .obj [("Component", .obj [("Fields", .obj [("featureList",
      .obj [("LinkedComponentValues", .arr [
        .null,
        .obj [("Fields", .obj [("description",
          .obj [("Values", .arr [.str "Temporarily Closed"])])])]])])])])]])]

/-- Document whose single feature carries the closure marker and whose
traversal completes without error. -/
def docC7wit : JsVal :=
  .obj [("ComponentPresentations", .arr [
    .obj [("Component", .obj [("Fields", .obj [("featureList",
      .obj [("LinkedComponentValues", .arr [
        .obj [("Fields", .obj [("description",
          .obj [("Values", .arr [.str "temporarily closed for refurbishment"])])])]])])])])]])]

/-- `{a: {x: null}, x: 5}`: the first occurrence of `x` in depth-first
order holds `null`, a later one holds `5`. -/
def docC9cex : JsVal := .obj [("a", .obj [("x", .null)]), ("x", .num 5)]

/-- Document whose only `target9` occurrence holds a string. -/
def docC9wit : JsVal := .obj [("wrap", .arr [.obj [("target9", .str "found9")]])]

/-- `{x: null, y: {x: 7}}`: a direct `null` hit precedes a deeper non-null
occurrence of `x`. -/
def docC10cex : JsVal := .obj [("x", .null), ("y", .obj [("x", .num 7)])]

/-- Document with a nested `null` occurrence of `t10` before a non-null
one. -/
def docC10wit : JsVal :=
  .obj [("p", .obj [("t10", .null)]), ("q", .obj [("t10", .num 3)])]

/-!  # Lemmas about the snapshot differ  -/

theorem foldl_append_flatten {α β : Type} (f : α → List β) (l : List α) :
    ∀ acc : List β, l.foldl (fun a x => a ++ f x) acc = acc ++ (l.map f).flatten := by
  induction l with
  | nil => simp
  | cons x t ih => intro acc; simp [ih]

theorem foldl_skip_single {α β : Type} (p : α → Bool) (g : α → β) (l : List α) :
    ∀ acc, l.foldl (fun a x => if p x then a else a ++ [g x]) acc
      = acc ++ (l.filter (fun x => !p x)).map g := by
  induction l with
  | nil => simp
  | cons x t ih =>
      intro acc
      cases h : p x <;> simp [List.filter_cons, h, ih]

theorem mapSet_eq_append (m : List (String × ScheduleRec)) (k : String) (v : ScheduleRec)
    (h : ∀ kv ∈ m, kv.1 ≠ k) : mapSet m k v = m ++ [(k, v)] := by
  induction m with
  | nil => rfl
  | cons kv t ih =>
      have h1 : kv.1 ≠ k := h kv (by simp)
      simp only [mapSet, if_neg h1, List.cons_append]
      exact congrArg _ (ih (fun x hx => h x (by simp [hx])))

theorem buildMap_go (l : List ScheduleRec) :
    ∀ m : List (String × ScheduleRec),
      (l.map (fun p => p.schedule_date)).Nodup →
      (∀ kv ∈ m, ∀ p ∈ l, kv.1 ≠ p.schedule_date) →
      l.foldl (fun m2 ex => mapSet m2 ex.schedule_date ex) m
        = m ++ l.map (fun p => (p.schedule_date, p)) := by
  induction l with
  | nil => simp
  | cons p t ih =>
      intro m hnd hdis
      have hp : ∀ kv ∈ m, kv.1 ≠ p.schedule_date := fun kv hkv => hdis kv hkv p (by simp)
      have hnd' : (t.map (fun q => q.schedule_date)).Nodup := by
        simpa using hnd.of_cons
      have hnotmem : p.schedule_date ∉ t.map (fun q => q.schedule_date) := by
        have := hnd
        simp only [List.map_cons, List.nodup_cons] at this
        exact this.1
      have hdis' : ∀ kv ∈ m ++ [(p.schedule_date, p)], ∀ q ∈ t, kv.1 ≠ q.schedule_date := by
        intro kv hkv q hq
        rcases List.mem_append.mp hkv with hkv | hkv
        · exact hdis kv hkv q (by simp [hq])
        · simp only [List.mem_singleton] at hkv
          subst hkv
          intro hEq
          apply hnotmem
          change p.schedule_date = q.schedule_date at hEq
          rw [hEq]
          exact List.mem_map_of_mem (fun r => r.schedule_date) hq
      simp only [List.foldl_cons, mapSet_eq_append m _ _ hp, ih _ hnd' hdis',
        List.map_cons, List.append_assoc, List.singleton_append]

theorem buildExistingMap_eq (l : List ScheduleRec)
    (h : (l.map (fun p => p.schedule_date)).Nodup) :
    buildExistingMap l = l.map (fun p => (p.schedule_date, p)) := by
  simpa using buildMap_go l [] h (by simp)

theorem mapGet_pairs (l : List ScheduleRec) (d : String) :
    mapGet (l.map (fun p => (p.schedule_date, p))) d
      = l.find? (fun p => p.schedule_date = d) := by
  induction l with
  | nil => rfl
  | cons p t ih =>
      by_cases h : p.schedule_date = d <;>
        simp [mapGet, List.find?_cons, h] <;>
        simpa [mapGet] using ih

theorem contains_dates_eq (l : List ScheduleRec) (d : String) :
    (l.map (fun s => s.schedule_date)).contains d
      = !(l.all (fun r => r.schedule_date ≠ d)) := by
  induction l with
  | nil => rfl
  | cons p t ih =>
      by_cases h : p.schedule_date = d
      · simp [List.contains_cons, h]
      · have hbeq : (d == p.schedule_date) = false :=
          beq_eq_false_iff_ne.mpr (fun hh => h hh.symm)
        have hdec : decide (p.schedule_date ≠ d) = true := by simp [h]
        simp only [List.map_cons, List.contains_cons, hbeq, Bool.false_or, ih,
          List.all_cons, hdec, Bool.true_and]

/-- Claim C1: for record lists with at most one record per date, the
differ emits exactly the events the spec describes — one LOW ADD with only
a new value per new date absent from the prior snapshot, a MEDIUM CHANGE
restricted to the display time iff the prior time differs, an independent
MEDIUM CHANGE restricted to the status iff the prior status differs, and
one HIGH REMOVE with only a previous value per prior date absent from the
new records. -/
theorem detectChanges_matches_spec (cfg : ShowConfig)
    (newRecs priorRecs : List ScheduleRec)
    (h1 : (newRecs.map (fun p => p.schedule_date)).Nodup)
    (h2 : (priorRecs.map (fun p => p.schedule_date)).Nodup) :
    detectChanges cfg newRecs priorRecs = detectChangesSpec cfg newRecs priorRecs := by
  simp only [detectChanges, detectChangesSpec]
  rw [foldl_append_flatten, foldl_skip_single]
  simp only [List.nil_append]
  congr 1
  · apply congrArg
    apply List.map_congr_left
    intro r _
    unfold newRecEvents
    rw [buildExistingMap_eq priorRecs h2, mapGet_pairs]
  · apply congrArg
    apply List.filter_congr
    intro p _
    rw [contains_dates_eq, Bool.not_not]

/-- Concrete run of claim C1's theorem: both snapshot lists have
duplicate-free dates and the differ agrees with the spec description. -/
theorem detectChanges_matches_spec_witness :
    (([⟨"2026-01-05", "8:30 PM", "SCHEDULED"⟩, ⟨"2026-01-07", "9:00 PM", "SCHEDULED"⟩] :
        List ScheduleRec).map (fun p => p.schedule_date)).Nodup ∧
    detectChanges ⟨"show-1", "Show One"⟩
        [⟨"2026-01-05", "8:30 PM", "SCHEDULED"⟩, ⟨"2026-01-07", "9:00 PM", "SCHEDULED"⟩]
        [⟨"2026-01-05", "8:00 PM", "SCHEDULED"⟩, ⟨"2026-01-06", "8:00 PM", "TENTATIVE"⟩]
      = detectChangesSpec ⟨"show-1", "Show One"⟩
        [⟨"2026-01-05", "8:30 PM", "SCHEDULED"⟩, ⟨"2026-01-07", "9:00 PM", "SCHEDULED"⟩]
        [⟨"2026-01-05", "8:00 PM", "SCHEDULED"⟩, ⟨"2026-01-06", "8:00 PM", "TENTATIVE"⟩] :=
  ⟨by decide,
   detectChanges_matches_spec ⟨"show-1", "Show One"⟩
     [⟨"2026-01-05", "8:30 PM", "SCHEDULED"⟩, ⟨"2026-01-07", "9:00 PM", "SCHEDULED"⟩]
     [⟨"2026-01-05", "8:00 PM", "SCHEDULED"⟩, ⟨"2026-01-06", "8:00 PM", "TENTATIVE"⟩]
     (by decide) (by decide)⟩

theorem newRecEvents_severity (cfg : ShowConfig) (m : List (String × ScheduleRec))
    (r : ScheduleRec) (e : ChangeEvent) (he : e ∈ newRecEvents cfg m r) :
    e.severity ≠ "HIGH" := by
  unfold newRecEvents at he
  rcases hm : mapGet m r.schedule_date with _ | ex <;> rw [hm] at he
  · simp only [List.mem_singleton] at he
    subst he
    simp [addEvent]
  · rcases List.mem_append.mp he with he | he <;> split at he <;>
      simp_all [timeChangeEvent, statusChangeEvent]

/-- Claim C8: the differ's output is exactly the ADD/CHANGE events derived
from the new records, in new-record iteration order, followed by the
REMOVE events derived from the prior records, in prior-record iteration
order; the first group never carries severity HIGH and the second group
always does. -/
theorem detectChanges_phase_order (cfg : ShowConfig)
    (newRecs priorRecs : List ScheduleRec) :
    detectChanges cfg newRecs priorRecs
      = (newRecs.map (newRecEvents cfg (buildExistingMap priorRecs))).flatten ++
        ((priorRecs.filter (fun ex =>
            !((newRecs.map (fun s => s.schedule_date)).contains ex.schedule_date))).map
          (removeEvent cfg)) ∧
    ((newRecs.map (newRecEvents cfg (buildExistingMap priorRecs))).flatten.all
        (fun e => e.severity ≠ "HIGH")) = true ∧
    (((priorRecs.filter (fun ex =>
          !((newRecs.map (fun s => s.schedule_date)).contains ex.schedule_date))).map
        (removeEvent cfg)).all (fun e => e.severity = "HIGH")) = true := by
  refine ⟨?_, ?_, ?_⟩
  · simp only [detectChanges]
    rw [foldl_append_flatten, foldl_skip_single]
    simp
  · simp only [List.all_eq_true, List.mem_flatten, List.mem_map, decide_eq_true_eq]
    rintro e ⟨_, ⟨r, _, rfl⟩, he⟩
    exact newRecEvents_severity cfg _ r e he
  · simp only [List.all_eq_true, List.mem_map, decide_eq_true_eq]
    rintro e ⟨ex, _, rfl⟩
    rfl

/-!  # Status computation  -/

/-- Claim C6: the entity status is `TEMPORARILY_CLOSED` when the closure
detector fired, else `ACTIVE` when the extraction produced at least one
record, else `UNKNOWN` — closure strictly precedes having a schedule,
which precedes unknown. -/
theorem currentStatus_precedence (doc : JsVal) (recs : List RawSchedule)
    (hex : extractSchedules doc = Except.ok recs) :
    (checkTemporarilyClosed doc = true →
      computeCurrentStatus doc = .ok "TEMPORARILY_CLOSED") ∧
    (checkTemporarilyClosed doc = false → recs ≠ [] →
      computeCurrentStatus doc = .ok "ACTIVE") ∧
    (checkTemporarilyClosed doc = false → recs = [] →
      computeCurrentStatus doc = .ok "UNKNOWN") := by
  refine ⟨fun h1 => ?_, fun h1 h2 => ?_, fun h1 h2 => ?_⟩ <;>
    simp only [computeCurrentStatus, hex, h1] <;> simp
  · exact h2
  · simp [h2]

/-- Concrete run of claim C6's theorem: the null document extracts no
records, is not closed, and gets status `UNKNOWN`. -/
theorem currentStatus_precedence_witness :
    extractSchedules .null = Except.ok [] ∧
      computeCurrentStatus .null = .ok "UNKNOWN" :=
  ⟨rfl, (currentStatus_precedence .null [] rfl).2.2 rfl rfl⟩

/-!  # Closure Detector  -/

theorem getProp_ok {v : JsVal} {k : String} {w : JsVal} (h : getProp v k = .ok w) :
    w = propT v k := by
  cases v <;> simp [getProp] at h <;> exact h.symm

theorem toLowerCaseJ_ok {v : JsVal} {l : String} (h : toLowerCaseJ v = .ok l) :
    isStr v = true ∧ l = jsToLower (strOf v) := by
  cases v <;> simp [toLowerCaseJ] at h <;> simp [isStr, h, jsToLower, strOf]

theorem jsIterate_ok {v : JsVal} {l : List JsVal} (h : jsIterate v = .ok l) :
    l = iterElems v := by
  cases v <;> simp [jsIterate] at h <;> simp [h, iterElems]

theorem featuresLoop_ok (fs : List JsVal) (b : Bool) (h : featuresLoop fs = .ok b) :
    fs.any featureClosed = b := by
  induction fs with
  | nil =>
      simp only [featuresLoop, Except.ok.injEq] at h
      simp [h]
  | cons f rest ih =>
      unfold featuresLoop at h
      split at h
      · cases h
      · rename_i ffields hf
        split at h
        · cases h
        · rename_i lower hl
          obtain ⟨hstr, hlow⟩ := toLowerCaseJ_ok hl
          have hff : ffields = propT f "Fields" := getProp_ok hf
          have hfc : featureClosed f = strIncludes lower "temporarily closed" := by
            simp only [featureClosed, ← hff, hstr, Bool.true_and, hlow]
          split at h
          · rename_i hm
            cases h
            simp [List.any_cons, hfc, hm]
          · rename_i hm
            simp only [List.any_cons, hfc, Bool.eq_false_iff.mpr hm, Bool.false_or]
            exact ih h

theorem presentationsLoop_ok (cps : List JsVal) (b : Bool)
    (h : presentationsLoop cps = .ok b) :
    (cps.any (fun cp =>
      (iterElems (jsOr (optChainT (optChainT (optChainT (propT cp "Component") "Fields")
          "featureList") "LinkedComponentValues") (.arr []))).any featureClosed)) = b := by
  induction cps with
  | nil =>
      simp only [presentationsLoop, Except.ok.injEq] at h
      simp [h]
  | cons cp rest ih =>
      unfold presentationsLoop at h
      split at h
      · cases h
      · rename_i comp hc
        have hcc : comp = propT cp "Component" := getProp_ok hc
        split at h
        · cases h
        · rename_i fs hi
          have hfs : fs = iterElems
              (jsOr (optChainT (optChainT (optChainT comp "Fields") "featureList")
                "LinkedComponentValues") (.arr [])) := jsIterate_ok hi
          split at h
          · cases h
          · cases h
            simp [List.any_cons, ← hcc, ← hfs, featuresLoop_ok fs true (by assumption)]
          · rename_i hfl
            simp only [List.any_cons, ← hcc, ← hfs, featuresLoop_ok fs false hfl,
              Bool.false_or]
            exact ih h

theorem innerCheckClosed_ok (doc : JsVal) (b : Bool) (h : innerCheckClosed doc = .ok b) :
    hasClosedFeature doc = b := by
  unfold innerCheckClosed at h
  split at h
  · cases h
  · rename_i cp0 hp
    have hpp : cp0 = propT doc "ComponentPresentations" := getProp_ok hp
    split at h
    · cases h
    · rename_i cps hi
      have hcs : cps = iterElems (jsOr cp0 (.arr [])) := jsIterate_ok hi
      unfold hasClosedFeature
      rw [← hpp, ← hcs]
      exact presentationsLoop_ok cps b h

/-- Counterexample to claim C7: this document has a feature whose
description text contains "temporarily closed", yet the detector returns
`false` because a `null` feature earlier in the scan makes the traversal
throw (the exception is caught and turned into `false`). -/
theorem checkTemporarilyClosed_cex :
    hasClosedFeature docC7cex = true ∧ checkTemporarilyClosed docC7cex = false :=
  ⟨rfl, rfl⟩

/-- Claim C7 (amended): the detector never raises and returns `false` on
any traversal error; whenever it returns `true` a feature description
containing "temporarily closed" really exists, and whenever the traversal
completes without error the result equals the predicate "some feature
description text contains 'temporarily closed'".  A traversal error aborts
the scan and yields `false` even when a qualifying feature occurs later. -/
theorem checkTemporarilyClosed_amended :
    (∀ doc : JsVal, checkTemporarilyClosed doc = true → hasClosedFeature doc = true) ∧
    (∀ (doc : JsVal) (b : Bool), innerCheckClosed doc = .ok b →
      checkTemporarilyClosed doc = hasClosedFeature doc) := by
  constructor
  · intro doc h
    unfold checkTemporarilyClosed at h
    cases hin : innerCheckClosed doc with
    | error e => rw [hin] at h; cases h
    | ok b =>
        rw [hin] at h
        subst h
        exact innerCheckClosed_ok doc true hin
  · intro doc b hin
    unfold checkTemporarilyClosed
    rw [hin, innerCheckClosed_ok doc b hin]

/-- Concrete run of claim C7's amended theorem: a document whose traversal
completes; the detector agrees with the spec predicate (both `true`). -/
theorem checkTemporarilyClosed_amended_witness :
    innerCheckClosed docC7wit = .ok true ∧
      checkTemporarilyClosed docC7wit = hasClosedFeature docC7wit :=
  ⟨rfl, checkTemporarilyClosed_amended.2 docC7wit true rfl⟩

/-!  # Value Locator  -/

theorem isNull_true {v : JsVal} (h : isNull v = true) : v = .null := by
  cases v <;> simp [isNull] at h ⊢

theorem occ_nil_find_null :
    ∀ (fuel : Nat) (v : JsVal) (k : String),
      occListFuel fuel v k = [] → findVBKFuel fuel v k = .null := by
  intro fuel
  induction fuel with
  | zero => intro v k _; rfl
  | succ fuel ih =>
      intro v k h
      cases v with
      | null => rfl
      | undefined => rfl
      | bool b => rfl
      | num n => rfl
      | str s => rfl
      | arr items =>
          simp only [occListFuel, List.flatten_eq_nil_iff, List.mem_map,
            forall_exists_index, and_imp, forall_apply_eq_imp_iff₂] at h
          show items.foldr
              (fun it r =>
                let v := findVBKFuel fuel it k
                if isNull v then r else v) .null = .null
          induction items with
          | nil => rfl
          | cons it rest ihl =>
              simp only [List.foldr_cons]
              rw [ih it k (h it (List.mem_cons_self it rest))]
              simp only [isNull, if_true]
              exact ihl (fun x hx => h x (List.mem_cons_of_mem it hx))
      | obj fields =>
          simp only [occListFuel, List.flatten_eq_nil_iff, List.mem_map,
            forall_exists_index, and_imp, forall_apply_eq_imp_iff₂,
            List.append_eq_nil] at h
          show fields.foldr
              (fun kv r =>
                if kv.1 = k then kv.2
                else
                  let v := findVBKFuel fuel kv.2 k
                  if isNull v then r else v) .null = .null
          induction fields with
          | nil => rfl
          | cons kv rest ihl =>
              obtain ⟨hcomp, hocc⟩ := h kv (List.mem_cons_self kv rest)
              have hne : ¬ kv.1 = k := by
                intro hk
                simp [hk] at hcomp
              simp only [List.foldr_cons, if_neg hne]
              rw [ih kv.2 k hocc]
              simp only [isNull, if_true]
              exact ihl (fun x hx => h x (List.mem_cons_of_mem kv hx))

theorem occ_head_find :
    ∀ (fuel : Nat) (v : JsVal) (k : String) (v0 : JsVal) (vs : List JsVal),
      occListFuel fuel v k = v0 :: vs → isNull v0 = false →
      findVBKFuel fuel v k = v0 := by
  intro fuel
  induction fuel with
  | zero => intro v k v0 vs h _; cases h
  | succ fuel ih =>
      intro v k v0 vs h hnn
      cases v with
      | null => cases h
      | undefined => cases h
      | bool b => cases h
      | num n => cases h
      | str s => cases h
      | arr items =>
          show items.foldr
              (fun it r =>
                let v := findVBKFuel fuel it k
                if isNull v then r else v) .null = v0
          simp only [occListFuel] at h
          induction items generalizing vs with
          | nil => cases h
          | cons it rest ihl =>
              simp only [List.map_cons, List.flatten_cons] at h
              cases hocc : occListFuel fuel it k with
              | nil =>
                  rw [hocc, List.nil_append] at h
                  simp only [List.foldr_cons]
                  rw [occ_nil_find_null fuel it k hocc]
                  simp only [isNull, if_true]
                  exact ihl vs h
              | cons w ws =>
                  rw [hocc, List.cons_append] at h
                  injection h with h1 h2
                  rw [h1] at hocc
                  simp only [List.foldr_cons]
                  rw [ih it k v0 ws hocc hnn]
                  simp [hnn]
      | obj fields =>
          show fields.foldr
              (fun kv r =>
                if kv.1 = k then kv.2
                else
                  let v := findVBKFuel fuel kv.2 k
                  if isNull v then r else v) .null = v0
          simp only [occListFuel] at h
          induction fields generalizing vs with
          | nil => cases h
          | cons kv rest ihl =>
              simp only [List.map_cons, List.flatten_cons] at h
              by_cases hk : kv.1 = k
              · rw [if_pos hk, List.cons_append, List.cons_append] at h
                injection h with h1 h2
                simp only [List.foldr_cons, if_pos hk]
                exact h1
              · rw [if_neg hk, List.nil_append] at h
                cases hocc : occListFuel fuel kv.2 k with
                | nil =>
                    rw [hocc, List.nil_append] at h
                    simp only [List.foldr_cons, if_neg hk]
                    rw [occ_nil_find_null fuel kv.2 k hocc]
                    simp only [isNull, if_true]
                    exact ihl vs h
                | cons w ws =>
                    rw [hocc, List.cons_append] at h
                    injection h with h1 h2
                    rw [h1] at hocc
                    simp only [List.foldr_cons, if_neg hk]
                    rw [ih kv.2 k v0 ws hocc hnn]
                    simp [hnn]

theorem find_mem_occ :
    ∀ (fuel : Nat) (v : JsVal) (k : String),
      isNull (findVBKFuel fuel v k) = false →
      findVBKFuel fuel v k ∈ occListFuel fuel v k := by
  intro fuel
  induction fuel with
  | zero => intro v k h; simp [findVBKFuel, isNull] at h
  | succ fuel ih =>
      intro v k h
      cases v with
      | null => simp [findVBKFuel, isNull] at h
      | undefined => simp [findVBKFuel, isNull] at h
      | bool b => simp [findVBKFuel, isNull] at h
      | num n => simp [findVBKFuel, isNull] at h
      | str s => simp [findVBKFuel, isNull] at h
      | arr items =>
          have aux : ∀ items2 : List JsVal,
              isNull (items2.foldr
                (fun it r =>
                  let v := findVBKFuel fuel it k
                  if isNull v then r else v) .null) = false →
              (items2.foldr
                (fun it r =>
                  let v := findVBKFuel fuel it k
                  if isNull v then r else v) .null)
                ∈ (items2.map (fun it => occListFuel fuel it k)).flatten := by
            intro items2
            induction items2 with
            | nil => intro h2; simp [isNull] at h2
            | cons it rest ihl =>
                intro h2
                simp only [List.foldr_cons] at h2 ⊢
                simp only [List.map_cons, List.flatten_cons]
                cases hni : isNull (findVBKFuel fuel it k) with
                | true =>
                    rw [isNull_true hni] at h2 ⊢
                    simp only [isNull, if_true] at h2 ⊢
                    exact List.mem_append_right _ (ihl h2)
                | false =>
                    simp only [hni, if_false] at h2 ⊢
                    exact List.mem_append_left _ (ih it k hni)
          exact aux items h
      | obj fields =>
          have aux : ∀ fields2 : List (String × JsVal),
              isNull (fields2.foldr
                (fun kv r =>
                  if kv.1 = k then kv.2
                  else
                    let v := findVBKFuel fuel kv.2 k
                    if isNull v then r else v) .null) = false →
              (fields2.foldr
                (fun kv r =>
                  if kv.1 = k then kv.2
                  else
                    let v := findVBKFuel fuel kv.2 k
                    if isNull v then r else v) .null)
                ∈ (fields2.map (fun kv =>
                    (if kv.1 = k then [kv.2] else []) ++ occListFuel fuel kv.2 k)).flatten := by
            intro fields2
            induction fields2 with
            | nil => intro h2; simp [isNull] at h2
            | cons kv rest ihl =>
                intro h2
                simp only [List.foldr_cons] at h2 ⊢
                simp only [List.map_cons, List.flatten_cons]
                by_cases hk : kv.1 = k
                · rw [if_pos hk] at h2 ⊢
                  rw [if_pos hk]
                  exact List.mem_append_left _ (List.mem_cons_self _ _)
                · rw [if_neg hk] at h2 ⊢
                  rw [if_neg hk]
                  cases hni : isNull (findVBKFuel fuel kv.2 k) with
                  | true =>
                      rw [isNull_true hni] at h2 ⊢
                      simp only [isNull, if_true] at h2 ⊢
                      exact List.mem_append_right _ (ihl h2)
                  | false =>
                      simp only [hni, if_false] at h2 ⊢
                      exact List.mem_append_left _
                        (List.mem_append_right _ (ih kv.2 k hni))
          exact aux fields h

/-- Counterexample to claim C9: on `{a: {x: null}, x: 5}` the first value
found under `x` in depth-first order is the `null` stored under `a.x`, so
the claimed behavior yields the sentinel; `findValueByKey` instead returns
the later value `5`. -/
theorem findValueByKey_cex :
    locateFirstSpec docC9cex "x" = .null ∧ findValueByKey docC9cex "x" 0 = .num 5 :=
  ⟨rfl, rfl⟩

/-- Claim C9 (amended): the locator is a deterministic depth-first search
bounded at depth 10 which returns the sentinel when the target key has no
occurrence within the bound, and returns the first occurrence's value
whenever that value is not `null`; when the first occurrence holds `null`
the result may instead be a later occurrence's value or the sentinel. -/
theorem findValueByKey_first_occurrence (obj : JsVal) (k : String) :
    (occList obj k = [] → findValueByKey obj k 0 = .null) ∧
    (∀ (v : JsVal) (vs : List JsVal), occList obj k = v :: vs → isNull v = false →
      findValueByKey obj k 0 = v) :=
  ⟨fun h => occ_nil_find_null 11 obj k h,
   fun v vs h hn => occ_head_find 11 obj k v vs h hn⟩

/-- Concrete run of claim C9's amended theorem: a document whose single
`target9` occurrence holds a string, which the locator returns. -/
theorem findValueByKey_first_occurrence_witness :
    occList docC9wit "target9" = [.str "found9"] ∧
      findValueByKey docC9wit "target9" 0 = .str "found9" :=
  ⟨rfl, (findValueByKey_first_occurrence docC9wit "target9").2 (.str "found9") [] rfl rfl⟩

/-- Counterexample to claim C10: on `{x: null, y: {x: 7}}` the `null`
stored directly under `x` is not skipped — it ends the scan of its mapping
— so the search misses the later non-null occurrence `7` and reports
not-found, where the claim says the traversal continues and may return
`7`. -/
theorem findValueByKey_skipnull_cex :
    locateSkipNullSpec docC10cex "x" = .num 7 ∧ findValueByKey docC10cex "x" 0 = .null :=
  ⟨rfl, rfl⟩

/-- Claim C10 (amended): a non-`null` result of the locator is always the
value of some occurrence of the target key within the depth bound, and
when every occurrence within the bound holds `null` the locator reports
not-found.  A `null`-valued occurrence found by a recursive subcall is
skipped and the traversal continues, but a direct `null` hit in a mapping
ends that mapping's scan, so a later non-null occurrence is not always
returned. -/
theorem findValueByKey_null_occurrences (obj : JsVal) (k : String) :
    (isNull (findValueByKey obj k 0) = false →
      findValueByKey obj k 0 ∈ occList obj k) ∧
    ((∀ v ∈ occList obj k, v = .null) → findValueByKey obj k 0 = .null) := by
  constructor
  · exact find_mem_occ 11 obj k
  · intro hall
    cases hn : isNull (findValueByKey obj k 0) with
    | true => exact isNull_true hn
    | false =>
        have hmem := find_mem_occ 11 obj k hn
        exact hall _ hmem

/-- Concrete run of claim C10's amended theorem: a nested `null`
occurrence of `t10` is skipped and the non-null value `3` is returned,
which is the value of an occurrence. -/
theorem findValueByKey_null_occurrences_witness :
    isNull (findValueByKey docC10wit "t10" 0) = false ∧
      findValueByKey docC10wit "t10" 0 ∈ occList docC10wit "t10" :=
  ⟨rfl, (findValueByKey_null_occurrences docC10wit "t10").1 rfl⟩

/-!  # Block Decoder  -/

theorem isStr_eq {v : JsVal} (h : isStr v = true) : v = .str (strOf v) := by
  cases v <;> simp [isStr, strOf] at h ⊢

theorem toLowerCaseJ_of_isStr {v : JsVal} (h : isStr v = true) :
    toLowerCaseJ v = .ok (jsToLower (strOf v)) := by
  cases v <;> simp [isStr] at h <;> rfl

theorem getProp_of_not_nullish {v : JsVal} (h : isNullish v = false) (k : String) :
    getProp v k = .ok (propT v k) := by
  cases v <;> simp [isNullish] at h <;> rfl

theorem truthy_not_nullish {v : JsVal} (h : truthy v = true) : isNullish v = false := by
  cases v <;> simp [truthy, isNullish] at h ⊢

theorem falsy_resolveEntries {bd : JsVal} (h : truthy bd = false) :
    resolveEntries bd = .arr [] := by
  cases bd <;> simp_all [truthy, resolveEntries, propT, jsOr]

theorem falsy_findVBK {bd : JsVal} (h : truthy bd = false) (k : String) :
    findValueByKey bd k 0 = .null := by
  cases bd <;> simp [truthy] at h <;> rfl

theorem fastPathStep_ok {be : JsVal} {st : JsVal × Bool} (h : fastPathStep be = .ok st) :
    st = fastPathT be := by
  cases be with
  | arr items =>
      cases items with
      | nil =>
          simp only [fastPathStep, Except.ok.injEq] at h
          simp [fastPathT, ← h]
      | cons block rest =>
          simp only [fastPathStep] at h
          split at h
          · cases h
          · rename_i eb heb
            have heb2 : eb = propT block "eyebrow" := getProp_ok heb
            split at h
            · rename_i hso
              split at h
              · cases h
              · rename_i lower hl
                cases h
                obtain ⟨hstr, hlow⟩ := toLowerCaseJ_ok hl
                simp [fastPathT, heb2, hso, hlow]
            · rename_i hso
              cases h
              rw [Bool.not_eq_true] at hso
              simp [fastPathT, heb2, hso]
  | null =>
      simp only [fastPathStep, Except.ok.injEq] at h
      simp [fastPathT, ← h]
  | undefined =>
      simp only [fastPathStep, Except.ok.injEq] at h
      simp [fastPathT, ← h]
  | bool b =>
      simp only [fastPathStep, Except.ok.injEq] at h
      simp [fastPathT, ← h]
  | num n =>
      simp only [fastPathStep, Except.ok.injEq] at h
      simp [fastPathT, ← h]
  | str s =>
      simp only [fastPathStep, Except.ok.injEq] at h
      simp [fastPathT, ← h]
  | obj fields =>
      simp only [fastPathStep, Except.ok.injEq] at h
      simp [fastPathT, ← h]

theorem styleFallbackStep_ok {bd : JsVal} {b : Bool} (h : styleFallbackStep bd = .ok b) :
    b = deepStyleDisabled bd := by
  unfold styleFallbackStep at h
  split at h
  · rename_i ht
    split at h
    · cases h
    · rename_i lower hl
      cases h
      obtain ⟨hstr, hlow⟩ := toLowerCaseJ_ok hl
      simp [deepStyleDisabled, ht, hlow]
  · rename_i ht
    cases h
    rw [Bool.not_eq_true] at ht
    simp [deepStyleDisabled, ht]

/-- Counterexample to claim C3: the first entry of this block carries a
style whose string "Active" does not contain "disabled", yet the decoder
reports the slot tentative, because the deep fallback runs even though the
fast path produced a (negative) tentativeness signal, and it reaches the
"Disabled Style" stored elsewhere in the slot. -/
theorem extractBlockInfo_styleFallback_cex :
    fastStyleVal docC3cex = some (.str "Active") ∧
    strIncludes (jsToLower "Active") "disabled" = false ∧
    fastStyleDisabled docC3cex = false ∧
    extractBlockInfo docC3cex = .ok ⟨.str "Unknown", true⟩ :=
  ⟨rfl, rfl, rfl, rfl⟩

/-- Claim C3 (amended): whenever the block decoder returns, the slot is
reported tentative iff the fast path found a style containing "disabled"
or the deep fallback search resolves a style containing "disabled" — the
deep search is skipped only when the fast path already signalled
tentative, not when it merely found a non-disabled style. -/
theorem extractBlockInfo_tentative (bd : JsVal) (info : BlockInfo)
    (h : extractBlockInfo bd = .ok info) :
    info.isTentative = (fastStyleDisabled bd || deepStyleDisabled bd) := by
  unfold extractBlockInfo at h
  split at h
  · rename_i hbd
    cases h
    have h1 : fastStyleDisabled bd = false := by
      simp [fastStyleDisabled, falsy_resolveEntries hbd, fastPathT]
    have h2 : deepStyleDisabled bd = false := by
      simp [deepStyleDisabled, falsy_findVBK hbd, truthy]
    simp [h1, h2]
  · split at h
    · cases h
    · rename_i st hst
      have hst2 : st = fastPathT (resolveEntries bd) := fastPathStep_ok hst
      split at h
      · cases h
      · rename_i t1 ht1
        cases h
        show t1 = _
        by_cases h2 : st.2 = true
        · rw [if_pos h2] at ht1
          cases ht1
          rw [fastStyleDisabled, ← hst2, h2, Bool.true_or]
        · rw [Bool.not_eq_true] at h2
          rw [h2] at ht1
          simp only [Bool.false_eq_true, if_false] at ht1
          rw [fastStyleDisabled, ← hst2, h2, Bool.false_or]
          exact styleFallbackStep_ok ht1

/-- Concrete run of claim C3's amended theorem: a block marked disabled on
the fast path is reported tentative, matching the disjunction. -/
theorem extractBlockInfo_tentative_witness :
    extractBlockInfo docC3wit = .ok ⟨.str "Unknown", true⟩ ∧
    (⟨.str "Unknown", true⟩ : BlockInfo).isTentative
      = (fastStyleDisabled docC3wit || deepStyleDisabled docC3wit) :=
  ⟨rfl, extractBlockInfo_tentative docC3wit ⟨.str "Unknown", true⟩ rfl⟩

/-!  # Calendar Extractor: the well-formed path  -/

theorem fastPathStep_wf {be : JsVal}
    (h : (match be with
          | .arr (block :: _) => !isNullish block && wfStyleChain (styleObjF block) (.str "")
          | _ => true) = true) :
    fastPathStep be = .ok (fastPathT be) := by
  cases be with
  | arr items =>
      cases items with
      | nil => rfl
      | cons block rest =>
          simp only [Bool.and_eq_true] at h
          obtain ⟨hnb, hwf⟩ := h
          rw [Bool.not_eq_true'] at hnb
          simp only [fastPathStep, fastPathT, getProp_of_not_nullish hnb]
          cases hso : truthy (styleObjF block) with
          | false => simp [hso]
          | true =>
              rw [wfStyleChain, hso] at hwf
              simp only [Bool.not_true, Bool.false_or] at hwf
              rw [toLowerCaseJ_of_isStr hwf]
              simp [hso, orChainVal]
  | null => rfl
  | undefined => rfl
  | bool b => rfl
  | num n => rfl
  | str s => rfl
  | obj fields => rfl

theorem styleFallbackStep_wf {bd : JsVal}
    (h : (!truthy (findValueByKey bd "style" 0) || isStr (deepStyleVal bd)) = true) :
    styleFallbackStep bd = .ok (deepStyleDisabled bd) := by
  unfold styleFallbackStep deepStyleDisabled
  cases ht : truthy (findValueByKey bd "style" 0) with
  | false => simp [ht]
  | true =>
      rw [ht] at h
      simp only [Bool.not_true, Bool.false_or] at h
      rw [toLowerCaseJ_of_isStr h]
      simp [ht]

theorem extractBlockInfo_wf (bd : JsVal) (h : wfBlockData bd = true) :
    extractBlockInfo bd = .ok (extractBlockInfoT bd) := by
  unfold extractBlockInfo extractBlockInfoT
  by_cases hbd : truthy bd = false
  · rw [if_pos hbd, if_pos hbd]
  · rw [if_neg hbd, if_neg hbd]
    rw [Bool.not_eq_false] at hbd
    rw [wfBlockData, hbd] at h
    simp only [Bool.not_true, Bool.false_or, Bool.and_eq_true] at h
    obtain ⟨hfast, hdeep⟩ := h
    have hfp : fastPathStep (resolveEntries bd) = .ok (fastPathT (resolveEntries bd)) :=
      fastPathStep_wf hfast
    have hsf : (if (fastPathT (resolveEntries bd)).2 then Except.ok true
          else styleFallbackStep bd)
        = Except.ok ((fastPathT (resolveEntries bd)).2 || deepStyleDisabled bd) := by
      cases ht : (fastPathT (resolveEntries bd)).2 with
      | true => simp
      | false => simp [styleFallbackStep_wf hdeep]
    simp only [hfp, hsf]

theorem datesLoop_all_str (dts : List JsVal) (info : BlockInfo)
    (h : dts.all isStr = true) :
    datesLoop dts info
      = .ok (dts.map (fun dt => mkRecord (splitHeadT (strOf dt)) info)) := by
  induction dts with
  | nil => rfl
  | cons dt rest ih =>
      simp only [List.all_cons, Bool.and_eq_true] at h
      obtain ⟨h1, h2⟩ := h
      cases dt <;> simp [isStr] at h1
      simp [datesLoop, ih h2, strOf]

theorem processEntry_wf (entry : JsVal) (h : wfEntry entry = true) (dbg : Bool) :
    ∃ dbg1 : Bool, processEntry entry dbg = .ok (perEntrySpec entry, dbg1) := by
  rw [wfEntry] at h
  simp only [Bool.and_eq_true] at h
  obtain ⟨⟨⟨hne, hdtv⟩, hdbg⟩, hwfbd⟩ := h
  rw [Bool.not_eq_true'] at hne
  unfold processEntry
  simp only [getProp_of_not_nullish hne]
  by_cases hskip : isNumZero (propT (dateTimeValuesOf (propT entry "eventDates")) "length") = true
  · refine ⟨dbg, ?_⟩
    rw [if_pos hskip]
    have hspec : perEntrySpec entry = [] := by
      unfold perEntrySpec
      cases hd : dateTimeValuesOf (propT entry "eventDates") with
      | arr l =>
          rw [hd] at hskip
          have : l = [] := by
            cases l with
            | nil => rfl
            | cons a t =>
                simp [propT, isNumZero] at hskip
                exact absurd hskip (by omega)
          simp [this]
      | null => rfl
      | undefined => rfl
      | bool b => rfl
      | num n => rfl
      | str s => rfl
      | obj fields => rfl
    rw [hspec]
  · refine ⟨true, ?_⟩
    rw [if_neg hskip]
    have hdbgstep : (if dbg then Except.ok true
          else if truthy (propT entry "blockData") then
            (if debugThrows (propT entry "blockData") then Except.error "TypeError"
             else Except.ok true)
          else Except.ok true) = Except.ok true := by
      cases dbg with
      | true => rfl
      | false =>
          simp only [Bool.false_eq_true, if_false]
          cases htb : truthy (propT entry "blockData") with
          | false => simp
          | true =>
              rw [htb] at hdbg
              simp only [Bool.not_true, Bool.false_or, Bool.not_eq_true'] at hdbg
              simp [hdbg]
    rw [hdbgstep, extractBlockInfo_wf _ hwfbd]
    cases hd : dateTimeValuesOf (propT entry "eventDates") with
    | arr l =>
        rw [hd] at hdtv
        simp only at hdtv
        simp only [jsIterate, datesLoop_all_str l _ hdtv]
        have hne2 : l.isEmpty = false := by
          rw [hd] at hskip
          cases l with
          | nil => simp [propT, isNumZero] at hskip
          | cons a t => rfl
        unfold perEntrySpec
        rw [hd]
        simp [hne2]
    | null => rw [hd] at hdtv hskip; simp only at hdtv; exact absurd hdtv hskip
    | undefined => rw [hd] at hdtv hskip; simp only at hdtv; exact absurd hdtv hskip
    | bool b => rw [hd] at hdtv hskip; simp only at hdtv; exact absurd hdtv hskip
    | num n => rw [hd] at hdtv hskip; simp only at hdtv; exact absurd hdtv hskip
    | str s => rw [hd] at hdtv hskip; simp only at hdtv; exact absurd hdtv hskip
    | obj fields => rw [hd] at hdtv hskip; simp only at hdtv; exact absurd hdtv hskip

theorem parseEntriesLoop_wf (es : List JsVal) :
    ∀ (acc : List RawSchedule) (dbg : Bool), es.all wfEntry = true →
      parseEntriesLoop es acc dbg = .ok (acc ++ (es.map perEntrySpec).flatten) := by
  induction es with
  | nil => intro acc dbg _; simp [parseEntriesLoop]
  | cons entry rest ih =>
      intro acc dbg hall
      simp only [List.all_cons, Bool.and_eq_true] at hall
      obtain ⟨h1, h2⟩ := hall
      obtain ⟨dbg1, hpe⟩ := processEntry_wf entry h1 dbg
      simp only [parseEntriesLoop, hpe]
      rw [ih (acc ++ perEntrySpec entry) dbg1 h2]
      simp

theorem parseCalendarConfig_wf (node : JsVal) (h : wfCalendar node = true) :
    parseCalendarConfig node = .ok (parseCalendarConfigSpec node) := by
  rw [wfCalendar] at h
  simp only [Bool.and_eq_true] at h
  obtain ⟨hnn, hrest⟩ := h
  rw [Bool.not_eq_true'] at hnn
  unfold parseCalendarConfig parseCalendarConfigSpec
  simp only [getProp_of_not_nullish hnn]
  cases hre : resolveEntries node with
  | arr es =>
      rw [hre] at hrest
      simp only at hrest
      simp [parseEntriesLoop_wf es [] false hrest]
  | null => rfl
  | undefined => rfl
  | bool b => rfl
  | num n => rfl
  | str s => rfl
  | obj fields => rfl

/-!  # Calendar Extractor: claims  -/

/-- Claim C5: on a well-formed calendar node the extractor returns exactly
the spec's description — entries with an empty or absent date list are
skipped entirely, every remaining entry emits one record per date-time
string with the date truncated at the `T` separator and the entry's single
decoded block shared across them, in input entry order then input date
order. -/
theorem parseCalendarConfig_matches_spec (node : JsVal) (h : wfCalendar node = true) :
    parseCalendarConfig node = .ok (parseCalendarConfigSpec node) :=
  parseCalendarConfig_wf node h

/-- Concrete run of claim C5's theorem: a two-entry node whose second
entry has no dates; the first entry fans out to two records sharing the
decoded block, kept in input date order (not sorted). -/
theorem parseCalendarConfig_matches_spec_witness :
    wfCalendar docC5wit = true ∧
    parseCalendarConfig docC5wit = .ok (parseCalendarConfigSpec docC5wit) ∧
    parseCalendarConfigSpec docC5wit =
      [⟨"2026-02-05", .str "7:00 PM", "SCHEDULED", true⟩,
       ⟨"2026-02-02", .str "7:00 PM", "SCHEDULED", true⟩] :=
  ⟨rfl, parseCalendarConfig_matches_spec docC5wit rfl, rfl⟩

/-- Counterexample to claim C4: the block decoder throws on an entry list
containing `null` (reading `block.eyebrow`), and the extractor throws on a
calendar whose entry list contains `null` (reading `entry.eventDates`) —
precisely the malformed inputs the claim says must not throw. -/
theorem coreThrow_cex :
    extractBlockInfo docC4bd = .error "TypeError" ∧
    parseCalendarConfig docC4node = .error "TypeError" :=
  ⟨rfl, rfl⟩

/-- Claim C4 (amended): the core functions always terminate, but they can
throw a `TypeError` on malformed input (null entries in entry lists,
non-string style values, non-string date strings); they return normally on
every input satisfying the well-formedness conditions `wfBlockData` /
`wfCalendar` (entry lists without nullish entries, style chains resolving
to strings, date lists that are string arrays or skipped as empty, blocks
surviving the debug inspection). -/
theorem coreNoThrow_wf :
    (∀ bd : JsVal, wfBlockData bd = true → isOkE (extractBlockInfo bd) = true) ∧
    (∀ node : JsVal, wfCalendar node = true → isOkE (parseCalendarConfig node) = true) := by
  constructor
  · intro bd h
    rw [extractBlockInfo_wf bd h]
    rfl
  · intro node h
    rw [parseCalendarConfig_wf node h]
    rfl

/-- Concrete run of claim C4's amended theorem on well-formed inputs. -/
theorem coreNoThrow_wf_witness :
    wfBlockData docC4wbd = true ∧ isOkE (extractBlockInfo docC4wbd) = true ∧
    wfCalendar docC4wnode = true ∧ isOkE (parseCalendarConfig docC4wnode) = true :=
  ⟨rfl, coreNoThrow_wf.1 docC4wbd rfl, rfl, coreNoThrow_wf.2 docC4wnode rfl⟩

theorem mkRecord_available (d : String) (info : BlockInfo) :
    ((mkRecord d info).is_available = true ↔ (mkRecord d info).status = "SCHEDULED") := by
  cases h : info.isTentative <;> simp [mkRecord, h]

theorem datesLoop_available (dts : List JsVal) (info : BlockInfo)
    (recs : List RawSchedule) (h : datesLoop dts info = .ok recs) :
    ∀ r ∈ recs, (r.is_available = true ↔ r.status = "SCHEDULED") := by
  induction dts generalizing recs with
  | nil =>
      simp only [datesLoop, Except.ok.injEq] at h
      subst h
      intro r hr
      cases hr
  | cons dt rest ih =>
      unfold datesLoop at h
      split at h
      · split at h
        · cases h
        · rename_i rs hrs
          cases h
          intro r hr
          rcases List.mem_cons.mp hr with hr | hr
          · subst hr
            exact mkRecord_available _ _
          · exact ih rs hrs r hr
      · cases h

theorem processEntry_available (entry : JsVal) (dbg : Bool)
    (recs : List RawSchedule) (dbg1 : Bool)
    (h : processEntry entry dbg = .ok (recs, dbg1)) :
    ∀ r ∈ recs, (r.is_available = true ↔ r.status = "SCHEDULED") := by
  unfold processEntry at h
  split at h
  · cases h
  · split at h
    · cases h
      intro r hr
      cases hr
    · split at h
      · cases h
      · split at h
        · cases h
        · rename_i info hinfo
          split at h
          · cases h
          · split at h
            · cases h
            · rename_i recs2 hrecs2
              cases h
              exact datesLoop_available _ info _ hrecs2

theorem parseEntriesLoop_available (es : List JsVal) :
    ∀ (acc recs : List RawSchedule) (dbg : Bool),
      parseEntriesLoop es acc dbg = .ok recs →
      (∀ r ∈ acc, (r.is_available = true ↔ r.status = "SCHEDULED")) →
      ∀ r ∈ recs, (r.is_available = true ↔ r.status = "SCHEDULED") := by
  induction es with
  | nil =>
      intro acc recs dbg h hacc
      simp only [parseEntriesLoop, Except.ok.injEq] at h
      subst h
      exact hacc
  | cons entry rest ih =>
      intro acc recs dbg h hacc
      cases hpe : processEntry entry dbg with
      | error e =>
          simp only [parseEntriesLoop, hpe] at h
          cases h
      | ok pr =>
          obtain ⟨recs1, dbg1⟩ := pr
          simp only [parseEntriesLoop, hpe] at h
          refine ih (acc ++ recs1) recs dbg1 h ?_
          intro r hr
          rcases List.mem_append.mp hr with hr | hr
          · exact hacc r hr
          · exact processEntry_available entry dbg recs1 dbg1 hpe r hr

/-- Counterexample to claim C2: a calendar node whose single entry lists
the same date twice; the extractor returns two records for that date, so
the at-most-one-record-per-date invariant fails. -/
theorem parseCalendarConfig_dup_cex :
    parseCalendarConfig docC2cex =
      .ok [⟨"2026-01-05", .str "Unknown", "SCHEDULED", true⟩,
           ⟨"2026-01-05", .str "Unknown", "SCHEDULED", true⟩] ∧
    ¬ ((["2026-01-05", "2026-01-05"] : List String).Nodup) :=
  ⟨rfl, by decide⟩

/-- Claim C2 (amended): every record the extractor returns satisfies
`isAvailable = (status == SCHEDULED)`; the extractor does not enforce
per-date uniqueness — an input listing the same calendar date twice yields
two records for it — so at most one record per date holds only when the
node's entries list pairwise distinct dates. -/
theorem parseCalendarConfig_available (node : JsVal) (recs : List RawSchedule)
    (h : parseCalendarConfig node = .ok recs) :
    ∀ r ∈ recs, (r.is_available = true ↔ r.status = "SCHEDULED") := by
  unfold parseCalendarConfig at h
  split at h
  · cases h
  · split at h
    · exact parseEntriesLoop_available _ [] recs false h (by intro r hr; cases hr)
    · cases h
      intro r hr
      cases hr

/-- Concrete run of claim C2's amended theorem: a tentative record has
`is_available = false` and status `TENTATIVE`, satisfying the
equivalence. -/
theorem parseCalendarConfig_available_witness :
    parseCalendarConfig docC2wit =
      .ok [⟨"2026-03-01", .str "9:00 PM", "TENTATIVE", false⟩] ∧
    ((⟨"2026-03-01", .str "9:00 PM", "TENTATIVE", false⟩ : RawSchedule).is_available = true ↔
      (⟨"2026-03-01", .str "9:00 PM", "TENTATIVE", false⟩ : RawSchedule).status = "SCHEDULED") :=
  ⟨rfl,
   parseCalendarConfig_available docC2wit
     [⟨"2026-03-01", .str "9:00 PM", "TENTATIVE", false⟩] rfl
     ⟨"2026-03-01", .str "9:00 PM", "TENTATIVE", false⟩ (List.mem_singleton.mpr rfl)⟩

end UEC
